import Mathlib

/-!
Verification of the Schwimmen/31 card-game engine.

The definitions below are a shallow embedding of the TypeScript sources:
  * `src/src/utils/gameLogic.ts` — pure card/scoring/round rules
  * `src/server/index.ts`        — the session orchestrator (state transitions)

JavaScript exceptions are modelled with `Except String`; `Math.random`-driven
shuffling is modelled by quantifying over the already-shuffled deck order;
wall-clock timestamps are omitted from `lastAction` (they are environment
input and no property depends on them).  Scores use `Rat` because the
three-of-a-kind score is 30.5.
-/

namespace Schwimmen

/-- Suit type from `src/types/game.ts`. -/
inductive Suit where
  | hearts | diamonds | clubs | spades
deriving DecidableEq, Repr

/-- Rank type from `src/types/game.ts`. -/
inductive Rank where
  | r7 | r8 | r9 | r10 | J | Q | K | A
deriving DecidableEq, Repr

/-- Card record from `src/types/game.ts`. -/
structure Card where
  suit : Suit
  rank : Rank
  id : String
deriving DecidableEq, Repr

/-- Player record from `src/types/game.ts`.  `lives` is an `Int` because the
decrement in `updatePlayerLives` can transiently be below zero before the
`Math.max(0, ·)` clamp. -/
structure Player where
  id : String
  name : String
  isAI : Bool
  lives : Int
  hand : List Card
  isSwimming : Bool
  isEliminated : Bool
  isDealer : Bool
  hasClosedRound : Bool
deriving DecidableEq, Repr

/-- `CARD_VALUES` from `gameLogic.ts` (7–10 face value, J/Q/K = 10, A = 11). -/
def CARD_VALUES : Rank → Rat
  | .r7 => 7
  | .r8 => 8
  | .r9 => 9
  | .r10 => 10
  | .J => 10
  | .Q => 10
  | .K => 10
  | .A => 11

/-- The `SUITS` constant from `gameLogic.ts`, in enumeration order. -/
def SUITS : List Suit := [.hearts, .diamonds, .clubs, .spades]

/-- The `RANKS` constant from `gameLogic.ts`. -/
def RANKS : List Rank := [.r7, .r8, .r9, .r10, .J, .Q, .K, .A]

/-- Printable suit name, used to build card ids as in `createDeck`. -/
def suitName : Suit → String
  | .hearts => "hearts"
  | .diamonds => "diamonds"
  | .clubs => "clubs"
  | .spades => "spades"

/-- Printable rank name, used to build card ids as in `createDeck`. -/
def rankName : Rank → String
  | .r7 => "7"
  | .r8 => "8"
  | .r9 => "9"
  | .r10 => "10"
  | .J => "J"
  | .Q => "Q"
  | .K => "K"
  | .A => "A"

/-- `createDeck` from `gameLogic.ts`: the 32-card deck, 4 suits × 8 ranks,
id = `suit-rank`. -/
def createDeck : List Card :=
  SUITS.flatMap (fun suit => RANKS.map (fun rank =>
    { suit := suit, rank := rank, id := suitName suit ++ "-" ++ rankName rank }))

/-- `ScoreResult` from `src/types/game.ts`. -/
structure ScoreResult where
  playerId : String
  score : Rat
  hand : List Card
  scoringCards : List Card
  isThreeOfKind : Bool
deriving DecidableEq, Repr

/-- `RoundResult` from `src/types/game.ts`. -/
structure RoundResult where
  scores : List ScoreResult
  loserIds : List String
  threeAcesPlayerId : Option String
deriving DecidableEq, Repr

/-- `calculateScore` from `gameLogic.ts`.  A hand of any length other than 3
raises (`Except.error`).  Three identical ranks score 30.5 with the full hand
as scoring subset; otherwise the best same-suit sum wins (the inner fold walks
`SUITS` in enumeration order, keeping the first suit that strictly improves the
best score, exactly as the source loop does).  The `best.2.length = 0` branch is
the source's "no same suit" fallback; it is unreachable for 3-card hands
because a card always matches its own suit with positive value. -/
def calculateScore (hand : List Card) : Except String ScoreResult :=
  match hand with
  | [c0, c1, c2] =>
    if c0.rank = c1.rank ∧ c1.rank = c2.rank then
      Except.ok { playerId := "", score := (61 : Rat) / 2, hand := hand,
                  scoringCards := hand, isThreeOfKind := true }
    else
      let best := SUITS.foldl (fun acc suit =>
        let sameSuitCards := hand.filter (fun c => c.suit = suit)
        if sameSuitCards.length > 0 then
          let score := sameSuitCards.foldl (fun sum card => sum + CARD_VALUES card.rank) 0
          if score > acc.1 then (score, sameSuitCards) else acc
        else acc) ((0 : Rat), ([] : List Card))
      if best.2.length = 0 then
        match hand with
        | [] => Except.error "Reduce of empty array with no initial value"
        | c :: rest =>
          let top := rest.foldl
            (fun b card => if CARD_VALUES card.rank > CARD_VALUES b.rank then card else b) c
          Except.ok { playerId := "", score := CARD_VALUES top.rank, hand := hand,
                      scoringCards := [top], isThreeOfKind := false }
      else
        Except.ok { playerId := "", score := best.1, hand := hand,
                    scoringCards := best.2, isThreeOfKind := false }
  | _ => Except.error "Hand must contain exactly 3 cards"

/-- `hasThreeAces` from `gameLogic.ts`: exactly 3 cards, all of rank Ace. -/
def hasThreeAces (hand : List Card) : Bool :=
  if hand.length ≠ 3 then false
  else hand.all (fun card => card.rank = Rank.A)

/-- Left-to-right effectful map over `Except`, modelling how a thrown
exception inside `Array.prototype.map` propagates out of the whole map. -/
def mapExcept (f : α → Except String β) : List α → Except String (List β)
  | [] => Except.ok []
  | x :: xs =>
    match f x with
    | Except.error e => Except.error e
    | Except.ok y => (mapExcept f xs).map (fun ys => y :: ys)

/-- Scoring one player: `{...calculateScore(p.hand), playerId: p.id}`. -/
def scoreWithId (p : Player) : Except String ScoreResult :=
  (calculateScore p.hand).map (fun r => { r with playerId := p.id })

/-- Minimum of a list of rationals; `Math.min(...[])` is `+Infinity`, which no
finite score equals, so the empty case is kept as `none` and treated by the
caller as "no loser". -/
def listMinQ : List Rat → Option Rat
  | [] => none
  | x :: xs =>
    match listMinQ xs with
    | none => some x
    | some m => some (min x m)

/-- `determineRoundResults` from `gameLogic.ts`.  Note that the source maps
`calculateScore` over ALL players (eliminated included), so a single player
whose hand is not exactly 3 cards makes the whole call raise. -/
def determineRoundResults (players : List Player) : Except String RoundResult :=
  let activePlayers := players.filter (fun p => !p.isEliminated)
  match activePlayers.find? (fun p => hasThreeAces p.hand) with
  | some threeAcesPlayer =>
    (mapExcept scoreWithId players).map (fun scores =>
      { scores := scores,
        loserIds := (activePlayers.filter (fun p => p.id ≠ threeAcesPlayer.id)).map (fun p => p.id),
        threeAcesPlayerId := some threeAcesPlayer.id })
  | none =>
    (mapExcept scoreWithId players).map (fun scores =>
      let activeScores := scores.filter (fun s => activePlayers.any (fun p => p.id = s.playerId))
      let loserIds :=
        match listMinQ (activeScores.map (fun s => s.score)) with
        | none => []
        | some minScore => (activeScores.filter (fun s => s.score = minScore)).map (fun s => s.playerId)
      { scores := scores, loserIds := loserIds, threeAcesPlayerId := none })

/-- `array.slice(i, j)` for card lists. -/
def slice (l : List Card) (i j : Nat) : List Card := (l.drop i).take (j - i)

/-- Result record of `dealCards`.  The `Map<string, Card[]>` of hands is
modelled as an association list in insertion (seating) order; player ids are
unique in every room, so `Map.set` never overwrites. -/
structure DealResult where
  deck : List Card
  playerHands : List (String × List Card)
  dealerSets : List Card × List Card
deriving DecidableEq, Repr

/-- The dealing loop of `dealCards`: walks the players in seating order,
giving `slice(shuffled, i, i+3)` to each non-dealer, non-eliminated player and
advancing `currentIndex` by 3.  Returns the hands and the final index. -/
def dealHandsAux (shuffled : List Card) : List Player → Nat → List (String × List Card) × Nat
  | [], currentIndex => ([], currentIndex)
  | p :: rest, currentIndex =>
    if !p.isDealer && !p.isEliminated then
      let r := dealHandsAux shuffled rest (currentIndex + 3)
      ((p.id, slice shuffled currentIndex (currentIndex + 3)) :: r.1, r.2)
    else dealHandsAux shuffled rest currentIndex

/-- `dealCards` from `gameLogic.ts`, applied to the already-shuffled deck
(the source calls `shuffleDeck` first; its Fisher-Yates output is some
permutation, so the theorems quantify over every order of `shuffled`).
Two further 3-card sets go to the dealer when one exists and is not
eliminated; the remaining cards become the new deck. -/
def dealCards (players : List Player) (shuffled : List Card) : DealResult :=
  let dealt := dealHandsAux shuffled players 0
  match players.find? (fun p => p.isDealer) with
  | some dealer =>
    if !dealer.isEliminated then
      { deck := shuffled.drop (dealt.2 + 6),
        playerHands := dealt.1,
        dealerSets := (slice shuffled dealt.2 (dealt.2 + 3),
                       slice shuffled (dealt.2 + 3) (dealt.2 + 6)) }
    else
      { deck := shuffled.drop dealt.2, playerHands := dealt.1, dealerSets := ([], []) }
  | none =>
    { deck := shuffled.drop dealt.2, playerHands := dealt.1, dealerSets := ([], []) }

/-- `getNextPlayerIndex` from `gameLogic.ts`: circular successor. -/
def getNextPlayerIndex (currentIndex totalPlayers : Nat) : Nat :=
  (currentIndex + 1) % totalPlayers

/-- `updatePlayerLives` from `gameLogic.ts`. -/
def updatePlayerLives (players : List Player) (loserIds : List String) : List Player :=
  players.map (fun player =>
    if player.id ∈ loserIds then
      let newLives : Int := player.lives - 1
      if player.isSwimming ∧ newLives < 0 then
        { player with lives := 0, isSwimming := true, isEliminated := true }
      else
        { player with lives := max 0 newLives,
                      isSwimming := decide (newLives = 0),
                      isEliminated := false }
    else player)

/-- `GamePhase` from `src/types/game.ts`. -/
inductive GamePhase where
  | setup | dealing | dealerDecision | playing | lastRound | scoring | roundEnd | gameEnd
deriving DecidableEq, Repr

/-- `PlayerAction` from `src/types/game.ts`. -/
inductive PlayerAction where
  | skip | exchangeOne | exchangeAll | closeRound
deriving DecidableEq, Repr

/-- The `lastAction` record written in `processPlayerAction`; the `Date.now()`
timestamp is environment input and is omitted. -/
structure LastAction where
  playerId : String
  action : PlayerAction
deriving DecidableEq, Repr

/-- `GameState` from `src/types/game.ts` (the fields the server reads and
writes).  `playersWhoActedAfterClose` is a JS `Set<string>`: modelled as an
insertion-ordered duplicate-free list, with `setAdd` below as `Set.add`. -/
structure GameState where
  players : List Player
  publicCards : List Card
  deck : List Card
  currentPlayerIndex : Nat
  dealerIndex : Nat
  phase : GamePhase
  roundNumber : Nat
  dealerSets : Option (List Card × List Card)
  seenSetIndex : Option Nat
  playersWhoActedAfterClose : List String
  roundClosedByPlayerId : Option String
  lastAction : Option LastAction
deriving DecidableEq, Repr

/-- `Set.prototype.add` on the modelled `playersWhoActedAfterClose`. -/
def setAdd (s : List String) (x : String) : List String :=
  if x ∈ s then s else s ++ [x]

/-- `getPersonalizedGameState` from `server/index.ts`: the per-viewer snapshot.
A player keeps their hand when they are the viewer or an AI; every other
player's hand is kept only in the `scoring` / `round-end` phases and is
replaced by an empty hand otherwise. -/
def getPersonalizedGameState (state : GameState) (playerId : String) : GameState :=
  { state with players := state.players.map (fun p =>
      if p.id = playerId ∨ p.isAI then p
      else { p with hand :=
        if state.phase = GamePhase.scoring ∨ state.phase = GamePhase.roundEnd
        then p.hand else [] }) }

/-- Indexing `dealerSets[i]` for `i ∈ {0, 1}` (the only values `seenSetIndex`
takes in the source, set at `server/index.ts:176`). -/
def setAt (sets : List Card × List Card) (i : Nat) : List Card :=
  if i = 0 then sets.1 else sets.2

/-- The skip-eliminated recursion of `processNextTurn`
(`server/index.ts:340-348`): while the seat at `index` holds an eliminated
player, advance to the next seat.  The source recursion terminates within
`players.length` steps whenever some player is not eliminated; an
all-eliminated room makes it recurse forever (the design error noted in the
spec), which the fuel cuts off.  The out-of-range branch mirrors an empty
room, which the server never creates. -/
def skipEliminatedAux (players : List Player) : Nat → Nat → Nat
  | 0, index => index
  | fuel + 1, index =>
    match players[index]? with
    | some currentPlayer =>
      if currentPlayer.isEliminated then
        skipEliminatedAux players fuel (getNextPlayerIndex index players.length)
      else index
    | none => index

/-- The synchronous effect of `processNextTurn` (`server/index.ts:335-371`):
advance `currentPlayerIndex` past eliminated players.  The AI turn it may
then schedule runs on an asynchronous timer and re-enters
`processPlayerAction` later, so it is no part of this call's state change. -/
def processNextTurn (s : GameState) : GameState :=
  { s with currentPlayerIndex :=
      skipEliminatedAux s.players s.players.length s.currentPlayerIndex }

/-- `processDealerDecision` from `server/index.ts:202-229`.  When
`dealerSets` or `seenSetIndex` is null it returns without changes; otherwise
it hands the chosen set to the dealer, makes the other set public, moves to
`playing`, sets `currentPlayerIndex` to the seat after the dealer, and then
runs the synchronous tail `processNextTurn(room)` (line 228), which moves
`currentPlayerIndex` onward past eliminated seats.  The source never writes
`dealerSets`/`seenSetIndex` back to null here. -/
def processDealerDecision (s : GameState) (keepSeenSet : Bool) : GameState :=
  match s.dealerSets, s.seenSetIndex with
  | some sets, some seenSetIndex =>
    let keptSet := if keepSeenSet then setAt sets seenSetIndex else setAt sets (1 - seenSetIndex)
    let publicSet := if keepSeenSet then setAt sets (1 - seenSetIndex) else setAt sets seenSetIndex
    processNextTurn { s with
      players := s.players.map (fun p => if p.isDealer then { p with hand := keptSet } else p),
      publicCards := publicSet,
      phase := GamePhase.playing,
      currentPlayerIndex := getNextPlayerIndex s.dealerIndex s.players.length }
  | _, _ => s

/-- The circular walk inside `getPlayersAfterRoundCloser`: starting at `index`,
collect players until the walk returns to `closerIndex`.  The source `while`
loop terminates after at most `players.length - 1` pushes, so fuel
`players.length` reproduces it exactly; the out-of-range branch is
unreachable because indices are reduced mod `players.length`. -/
def collectAfterAux (players : List Player) (closerIndex : Nat) : Nat → Nat → List Player
  | 0, _ => []
  | fuel + 1, index =>
    if index = closerIndex then []
    else
      match players[index]? with
      | some p => p :: collectAfterAux players closerIndex fuel (getNextPlayerIndex index players.length)
      | none => []

/-- `getPlayersAfterRoundCloser` from `server/index.ts`: every player after the
round closer in circular seating order (all seats except the closer's).  When
`roundClosedByPlayerId` is null or not a player id, `findIndex` gives `-1` and
the source returns `[]`. -/
def getPlayersAfterRoundCloser (s : GameState) : List Player :=
  match s.roundClosedByPlayerId with
  | none => []
  | some closerId =>
    match s.players.findIdx? (fun p => p.id = closerId) with
    | none => []
    | some closerIndex =>
      collectAfterAux s.players closerIndex s.players.length
        (getNextPlayerIndex closerIndex s.players.length)

/-- Which `finishRound` call `processPlayerAction` made: the three-aces call
`finishRound(room, playerId)` at `server/index.ts:279`, or the all-acted call
`finishRound(room, null)` at `server/index.ts:301`.  The claims under proof
quantify only up to this invocation; the scoring it performs is
`determineRoundResults` / `updatePlayerLives`, modelled separately above. -/
inductive FinishCall where
  | threeAces (playerId : String)
  | allActed
deriving DecidableEq, Repr

/-- The card-manipulation step of `processPlayerAction`
(`server/index.ts:254-275`), applied after the turn-ownership and elimination
guards, where `player` is the entry of `s.players` at `playerIndex`.
`exchange-one` swaps one named hand card with one named public card provided
both are found (`findIndex >= 0`); `exchange-all` swaps the whole hand with
the whole public set; `close-round` moves to `last-round` and records the
closer; `skip` changes nothing. -/
def applyAction (s : GameState) (playerIndex : Nat) (player : Player) (playerId : String)
    (action : PlayerAction) (cardToExchange publicCardToTake : Option Card) : GameState :=
  match action with
  | .skip => s
  | .exchangeOne =>
    match cardToExchange, publicCardToTake with
    | some cardToExchange, some publicCardToTake =>
      match player.hand.findIdx? (fun c => c.id = cardToExchange.id),
            s.publicCards.findIdx? (fun c => c.id = publicCardToTake.id) with
      | some handIndex, some publicIndex =>
        match player.hand[handIndex]?, s.publicCards[publicIndex]? with
        | some handCard, some publicCard =>
          { s with
            players := s.players.set playerIndex
              { player with hand := player.hand.set handIndex publicCard },
            publicCards := s.publicCards.set publicIndex handCard }
        | _, _ => s
      | _, _ => s
    | _, _ => s
  | .exchangeAll =>
    { s with
      players := s.players.set playerIndex { player with hand := s.publicCards },
      publicCards := player.hand }
  | .closeRound =>
    { s with
      phase := GamePhase.lastRound,
      roundClosedByPlayerId := some playerId,
      players := s.players.set playerIndex { player with hasClosedRound := true } }

/-- The `last-round` bookkeeping of `processPlayerAction`
(`server/index.ts:291-304`): add the actor to `playersWhoActedAfterClose`;
if every player after the round closer has acted, `finishRound(room, null)`
is called, otherwise the turn advances. -/
def lastRoundStep (s2 : GameState) (playerId : String) : GameState × Option FinishCall :=
  let s3 := { s2 with
    playersWhoActedAfterClose := setAdd s2.playersWhoActedAfterClose playerId }
  let playersAfterCloser := getPlayersAfterRoundCloser s3
  if playersAfterCloser.all (fun p => p.id ∈ s3.playersWhoActedAfterClose) then
    (s3, some FinishCall.allActed)
  else
    ({ s3 with currentPlayerIndex :=
        getNextPlayerIndex s3.currentPlayerIndex s3.players.length }, none)

/-- `processPlayerAction` from `server/index.ts:232-314`.  Returns the state
as left by the function together with the `finishRound` call it made, if any.
The guards reject silently: an unknown player id (`findIndex` gives `-1`),
a non-current player, or an eliminated player leave the state untouched. -/
def processPlayerAction (s : GameState) (playerId : String) (action : PlayerAction)
    (cardToExchange publicCardToTake : Option Card) : GameState × Option FinishCall :=
  match s.players.findIdx? (fun p => p.id = playerId) with
  | none => (s, none)
  | some playerIndex =>
    if playerIndex ≠ s.currentPlayerIndex then (s, none)
    else
      match s.players[playerIndex]? with
      | none => (s, none)
      | some player =>
        if player.isEliminated then (s, none)
        else
          let s1 := applyAction s playerIndex player playerId action cardToExchange publicCardToTake
          let actorHand := ((s1.players[playerIndex]?).map Player.hand).getD []
          if hasThreeAces actorHand then
            (s1, some (FinishCall.threeAces playerId))
          else
            let s2 := { s1 with lastAction := some { playerId := playerId, action := action } }
            if s2.phase = GamePhase.lastRound then
              lastRoundStep s2 playerId
            else
              ({ s2 with currentPlayerIndex :=
                  getNextPlayerIndex s2.currentPlayerIndex s2.players.length }, none)

/-! ### Concrete instances used by witnesses and counterexamples -/

-- Rational arithmetic is `@[irreducible]` in this toolchain; scores are
-- small concrete rationals, so kernel evaluation is re-enabled for them.
attribute [local semireducible] Rat.add Rat.mul Rat.sub Rat.inv

deriving instance DecidableEq for Except

/-- Card shorthand with the id `createDeck` would give it. -/
def card (s : Suit) (r : Rank) : Card :=
  { suit := s, rank := r, id := suitName s ++ "-" ++ rankName r }

/-- A baseline human player used to build concrete game situations. -/
def basePlayer : Player :=
  { id := "player-0", name := "P", isAI := false, lives := 3, hand := [],
    isSwimming := false, isEliminated := false, isDealer := false,
    hasClosedRound := false }

/-- An active dealer holding 7♥ K♠ 9♣. -/
def pActiveA : Player :=
  { basePlayer with
    id := "player-0",
    hand := [card .hearts .r7, card .spades .K, card .clubs .r9],
    isDealer := true }

/-- An active non-dealer holding 8♥ Q♦ 10♣. -/
def pActiveB : Player :=
  { basePlayer with
    id := "player-1",
    hand := [card .hearts .r8, card .diamonds .Q, card .clubs .r10] }

/-- An eliminated player with the empty hand every eliminated player has
after `startDealingPhase` resets hands and `dealCards` skips them. -/
def pElimE : Player :=
  { basePlayer with
    id := "player-2", lives := 0, hand := [],
    isSwimming := true, isEliminated := true }

/-- A hand of three aces. -/
def acesHand : List Card := [card .hearts .A, card .clubs .A, card .spades .A]

/-- First of two simultaneous three-aces holders. -/
def pTripsFirst : Player := { basePlayer with id := "trips-0", hand := acesHand }

/-- Second of two simultaneous three-aces holders. -/
def pTripsSecond : Player :=
  { basePlayer with
    id := "trips-1",
    hand := [card .hearts .A, card .clubs .A, card .diamonds .A] }

/-- A dealer-decision state: dealer seat 0, both dealer sets present,
seen set index 0. -/
def exDealerState : GameState :=
  { players := [pActiveA, pActiveB],
    publicCards := [],
    deck := [],
    currentPlayerIndex := 0,
    dealerIndex := 0,
    phase := GamePhase.dealerDecision,
    roundNumber := 1,
    dealerSets := some ([card .hearts .r7, card .spades .K, card .clubs .r9],
                        [card .hearts .r8, card .diamonds .Q, card .clubs .r10]),
    seenSetIndex := some 0,
    playersWhoActedAfterClose := [],
    roundClosedByPlayerId := none,
    lastAction := none }

/-- A dealer-decision state whose seat after the dealer is eliminated:
dealer seat 0, seat 1 eliminated, seat 2 active. -/
def exDealerElimNextState : GameState :=
  { players := [pActiveA, pElimE, pActiveB],
    publicCards := [],
    deck := [],
    currentPlayerIndex := 0,
    dealerIndex := 0,
    phase := GamePhase.dealerDecision,
    roundNumber := 2,
    dealerSets := some ([card .hearts .r7, card .spades .K, card .clubs .r9],
                        [card .hearts .r8, card .diamonds .Q, card .clubs .r10]),
    seenSetIndex := some 0,
    playersWhoActedAfterClose := [],
    roundClosedByPlayerId := none,
    lastAction := none }

/-- The combined card pool of a state: every player's hand, the public cards
and the deck, in seating order.  `processPlayerAction`'s card step must
permute this pool, never create or destroy cards. -/
def allCards (s : GameState) : List Card :=
  (s.players.map Player.hand).flatten ++ s.publicCards ++ s.deck

/-- An AI player holding A♠ (AI hands stay visible in snapshots). -/
def pAiC : Player :=
  { basePlayer with
    id := "ai-0", isAI := true, hand := [card .spades .A] }

/-- A mid-round playing state: seat 1 (human `player-1`) holds the turn. -/
def exPlayingState : GameState :=
  { players := [pActiveA, pActiveB, pAiC],
    publicCards := [card .diamonds .r9, card .spades .r8, card .clubs .J],
    deck := [card .hearts .J],
    currentPlayerIndex := 1,
    dealerIndex := 0,
    phase := GamePhase.playing,
    roundNumber := 1,
    dealerSets := none,
    seenSetIndex := none,
    playersWhoActedAfterClose := [],
    roundClosedByPlayerId := none,
    lastAction := none }

/-- An eliminated player who still holds 3 cards (so the scoring pass over
all players succeeds). -/
def pElimWithHand : Player :=
  { basePlayer with
    id := "elim-3", lives := 0, isSwimming := true, isEliminated := true,
    hand := [card .spades .r7, card .diamonds .r7, card .clubs .K] }

/-- A swimming loser: zero lives, already swimming. -/
def pSwimLoser : Player :=
  { basePlayer with id := "swim-0", lives := 0, isSwimming := true }

/-- A non-swimming loser with two lives. -/
def pFreshLoser : Player :=
  { basePlayer with id := "fresh-1", lives := 2 }

/-- A bystander who is not in the loser list. -/
def pBystander : Player :=
  { basePlayer with id := "safe-2", lives := 1 }

/-- Seat 0 of the 4-player close-round scenario. -/
def pL0 : Player := { basePlayer with id := "player-0" }

/-- Seat 1 of the 4-player close-round scenario (the last to act). -/
def pL1 : Player := { basePlayer with id := "player-1" }

/-- Seat 2 of the 4-player close-round scenario: the round closer. -/
def pL2 : Player := { basePlayer with id := "player-2", hasClosedRound := true }

/-- Seat 3 of the 4-player close-round scenario. -/
def pL3 : Player := { basePlayer with id := "player-3" }

/-- Last-round state: seat 2 closed; seats 3 and 0 have acted since (the
closer was recorded when closing); seat 1 holds the turn. -/
def exLastRoundState : GameState :=
  { players := [pL0, pL1, pL2, pL3],
    publicCards := [],
    deck := [],
    currentPlayerIndex := 1,
    dealerIndex := 0,
    phase := GamePhase.lastRound,
    roundNumber := 2,
    dealerSets := none,
    seenSetIndex := none,
    playersWhoActedAfterClose := ["player-2", "player-3", "player-0"],
    roundClosedByPlayerId := some "player-2",
    lastAction := none }

/-! ### Theorems -/

/-- Helper: overwriting an index with its own element leaves a list
unchanged. -/
theorem list_set_self (l : List α) : ∀ (i : Nat) (hi : i < l.length), l.set i l[i] = l := by
  induction l with
  | nil => intro i hi; simp at hi
  | cons x xs ih =>
    intro i hi
    cases i with
    | zero => simp
    | succ n =>
      simp only [List.getElem_cons_succ, List.set_cons_succ, List.cons.injEq, true_and]
      exact ih n (by simpa using hi)

/-- Claim C1 (code bug): an eliminated player holds 0 cards after dealing, yet
`determineRoundResults` scores every player's hand, so on a list where the
active players hold 3 cards and an eliminated player holds none it raises the
invalid-input error instead of completing with the eliminated player excluded
from scoring. -/
theorem determineRoundResults_raises_on_eliminated_empty_hand :
    determineRoundResults [pActiveA, pActiveB, pElimE] =
      Except.error "Hand must contain exactly 3 cards" := by
  decide

/-- Claim C2, counterexample: on a state with both dealer sets and a seen-set
index present, but whose seat after the dealer is eliminated,
`processDealerDecision` leaves `dealerSets` and `seenSetIndex` set — the
source never writes them back to null — and, because the trailing
`processNextTurn` advances past the eliminated seat, the final
`currentPlayerIndex` is not `(dealerIndex + 1) mod playerCount` either. -/
theorem processDealerDecision_counterexample :
    (processDealerDecision exDealerElimNextState true).dealerSets ≠ none ∧
    (processDealerDecision exDealerElimNextState true).seenSetIndex ≠ none ∧
    (processDealerDecision exDealerElimNextState true).currentPlayerIndex ≠
      (exDealerElimNextState.dealerIndex + 1) % exDealerElimNextState.players.length := by
  refine ⟨by decide, by decide, by decide⟩

/-- Helper: the skip-eliminated walk stops immediately on a seat holding a
non-eliminated player. -/
theorem skipEliminatedAux_not_eliminated (players : List Player) (fuel index : Nat)
    (q : Player) (hq : players[index]? = some q) (hqe : q.isEliminated = false) :
    skipEliminatedAux players fuel index = index := by
  cases fuel with
  | zero => rfl
  | succ f => simp [skipEliminatedAux, hq, hqe]

/-- Claim C2 (amended): after `processDealerDecision` on a state with dealer
sets and a seen-set index (0 or 1), the dealer's hand is the chosen set (the
seen set if `keepSeenSet`, else the other) and `publicCards` is the other
set; `dealerSets` and `seenSetIndex` are left unchanged rather than cleared
to null; and `currentPlayerIndex` ends at `(dealerIndex + 1) mod playerCount`
only when the player at that seat is not eliminated — the trailing
`processNextTurn` call advances past eliminated seats. -/
theorem processDealerDecision_spec (s : GameState) (keepSeenSet : Bool)
    (ds : List Card × List Card) (si : Nat)
    (hds : s.dealerSets = some ds) (hsi : s.seenSetIndex = some si)
    (_hsival : si = 0 ∨ si = 1) :
    (∀ p ∈ (processDealerDecision s keepSeenSet).players, p.isDealer = true →
        p.hand = (if keepSeenSet then setAt ds si else setAt ds (1 - si))) ∧
    (processDealerDecision s keepSeenSet).publicCards
      = (if keepSeenSet then setAt ds (1 - si) else setAt ds si) ∧
    (processDealerDecision s keepSeenSet).dealerSets = some ds ∧
    (processDealerDecision s keepSeenSet).seenSetIndex = some si ∧
    (∀ q : Player, s.players[(s.dealerIndex + 1) % s.players.length]? = some q →
        q.isEliminated = false →
        (processDealerDecision s keepSeenSet).currentPlayerIndex
          = (s.dealerIndex + 1) % s.players.length) ∧
    (processDealerDecision s keepSeenSet).phase = GamePhase.playing := by
  unfold processDealerDecision processNextTurn
  rw [hds, hsi]
  refine ⟨?_, rfl, rfl, rfl, ?_, rfl⟩
  · intro p hp hdealer
    simp only [List.mem_map] at hp
    obtain ⟨q, _, rfl⟩ := hp
    by_cases hqd : q.isDealer
    · simp [hqd]
    · simp [hqd] at hdealer
  · intro q hq hqe
    exact skipEliminatedAux_not_eliminated
      (s.players.map (fun p => if p.isDealer then
        { p with hand := if keepSeenSet then setAt ds si else setAt ds (1 - si) } else p))
      (s.players.map (fun p => if p.isDealer then
        { p with hand := if keepSeenSet then setAt ds si else setAt ds (1 - si) } else p)).length
      ((s.dealerIndex + 1) % s.players.length)
      (if q.isDealer then
        { q with hand := if keepSeenSet then setAt ds si else setAt ds (1 - si) } else q)
      (by rw [List.getElem?_map, hq]; rfl)
      (by by_cases hd : q.isDealer <;> simp [hd, hqe])

/-- Claim C2, witness: the amended statement evaluated on a concrete
dealer-decision state whose seat after the dealer is not eliminated, so the
current player really ends at that seat. -/
theorem processDealerDecision_spec_witness :
    (∀ p ∈ (processDealerDecision exDealerState true).players, p.isDealer = true →
        p.hand = setAt ([card .hearts .r7, card .spades .K, card .clubs .r9],
                        [card .hearts .r8, card .diamonds .Q, card .clubs .r10]) 0) ∧
    (processDealerDecision exDealerState true).publicCards
      = setAt ([card .hearts .r7, card .spades .K, card .clubs .r9],
               [card .hearts .r8, card .diamonds .Q, card .clubs .r10]) (1 - 0) ∧
    (processDealerDecision exDealerState true).dealerSets
      = some ([card .hearts .r7, card .spades .K, card .clubs .r9],
              [card .hearts .r8, card .diamonds .Q, card .clubs .r10]) ∧
    (processDealerDecision exDealerState true).seenSetIndex = some 0 ∧
    (processDealerDecision exDealerState true).currentPlayerIndex
      = (exDealerState.dealerIndex + 1) % exDealerState.players.length ∧
    (processDealerDecision exDealerState true).phase = GamePhase.playing := by
  have h := processDealerDecision_spec exDealerState true
    ([card .hearts .r7, card .spades .K, card .clubs .r9],
     [card .hearts .r8, card .diamonds .Q, card .clubs .r10]) 0 rfl rfl (Or.inl rfl)
  refine ⟨?_, ?_, h.2.2.1, h.2.2.2.1, ?_, h.2.2.2.2.2⟩
  · simpa using h.1
  · simpa using h.2.1
  · exact h.2.2.2.2.1 pActiveB (by decide) (by decide)

/-- Claim C3, counterexample: the same-suit hand A♥ K♥ Q♥ has no three
identical ranks, yet scores 31, strictly above the three-of-a-kind score 30.5
— so 30.5 is not the maximum possible score. -/
theorem calculateScore_suit_sum_beats_thirty_point_five :
    (calculateScore [card .hearts .A, card .hearts .K, card .hearts .Q]).map
        (fun r => r.score) = Except.ok 31 ∧
    ¬((card .hearts .A).rank = (card .hearts .K).rank ∧
      (card .hearts .K).rank = (card .hearts .Q).rank) ∧
    (31 : Rat) > (61 : Rat) / 2 := by
  refine ⟨by decide, by decide, by decide⟩

/-- Claim C3 (amended): for every 3-card hand whose three ranks are identical,
`calculateScore` returns exactly 30.5 with the full hand as the scoring
subset; 30.5 is however not the maximum possible score, since a same-suit
A-K-Q hand scores 31 (see the counterexample above). -/
theorem calculateScore_three_of_a_kind (c0 c1 c2 : Card)
    (h01 : c0.rank = c1.rank) (h12 : c1.rank = c2.rank) :
    calculateScore [c0, c1, c2] =
      Except.ok { playerId := "", score := (61 : Rat) / 2, hand := [c0, c1, c2],
                  scoringCards := [c0, c1, c2], isThreeOfKind := true } := by
  simp [calculateScore, h01, h12]

/-- Claim C3, witness: three aces score exactly 30.5 with the full hand as
the scoring subset. -/
theorem calculateScore_three_of_a_kind_witness :
    calculateScore acesHand =
      Except.ok { playerId := "", score := (61 : Rat) / 2, hand := acesHand,
                  scoringCards := acesHand, isThreeOfKind := true } :=
  calculateScore_three_of_a_kind (card .hearts .A) (card .clubs .A) (card .spades .A) rfl rfl

/-- Claim C6: `updatePlayerLives` — a loser who was already swimming (zero
lives) becomes eliminated with lives pinned at 0; a loser who was not
swimming (hence, by the swimming invariant `isSwimming ↔ lives = 0`, has at
least one life) goes to exactly `lives - 1` and becomes swimming iff that
result is 0, not yet eliminated; every non-loser is returned unchanged. -/
theorem updatePlayerLives_spec (players : List Player) (loserIds : List String)
    (i : Nat) (hi : i < players.length) :
    (players[i].id ∉ loserIds →
        (updatePlayerLives players loserIds)[i]? = some players[i]) ∧
    (players[i].id ∈ loserIds → players[i].isSwimming = true → players[i].lives = 0 →
        (updatePlayerLives players loserIds)[i]? =
          some { players[i] with
               lives := 0, isSwimming := true, isEliminated := true }) ∧
    (players[i].id ∈ loserIds → players[i].isSwimming = false → 1 ≤ players[i].lives →
        (updatePlayerLives players loserIds)[i]? =
          some { players[i] with
                 lives := players[i].lives - 1,
                 isSwimming := decide (players[i].lives - 1 = 0),
                 isEliminated := false }) := by
  refine ⟨?_, ?_, ?_⟩
  · intro hmem
    simp only [updatePlayerLives, List.getElem?_map, List.getElem?_eq_getElem hi,
      Option.map_some', Option.some.injEq]
    simp [hmem]
  · intro hmem hsw hl
    simp only [updatePlayerLives, List.getElem?_map, List.getElem?_eq_getElem hi,
      Option.map_some', Option.some.injEq]
    rw [if_pos hmem, if_pos ⟨hsw, by omega⟩]
  · intro hmem hsw hl
    simp only [updatePlayerLives, List.getElem?_map, List.getElem?_eq_getElem hi,
      Option.map_some', Option.some.injEq]
    rw [if_pos hmem, if_neg (by simp [hsw])]
    have hmax : (0 : Int) ⊔ (players[i].lives - 1) = players[i].lives - 1 :=
      max_eq_right (by omega)
    rw [hmax]

/-- Claim C6, witness: one swimming loser, one fresh loser, one bystander. -/
theorem updatePlayerLives_spec_witness :
    (updatePlayerLives [pSwimLoser, pFreshLoser, pBystander] ["swim-0", "fresh-1"])[0]? =
        some { pSwimLoser with
               lives := 0, isSwimming := true, isEliminated := true } ∧
    (updatePlayerLives [pSwimLoser, pFreshLoser, pBystander] ["swim-0", "fresh-1"])[1]? =
        some { pFreshLoser with
               lives := 1, isSwimming := false, isEliminated := false } ∧
    (updatePlayerLives [pSwimLoser, pFreshLoser, pBystander] ["swim-0", "fresh-1"])[2]? =
        some pBystander := by
  refine ⟨?_, ?_, ?_⟩
  · exact (updatePlayerLives_spec [pSwimLoser, pFreshLoser, pBystander]
      ["swim-0", "fresh-1"] 0 (by decide)).2.1 (by decide) (by decide) (by decide)
  · have h := (updatePlayerLives_spec [pSwimLoser, pFreshLoser, pBystander]
      ["swim-0", "fresh-1"] 1 (by decide)).2.2 (by decide) (by decide) (by decide)
    simpa using h
  · exact (updatePlayerLives_spec [pSwimLoser, pFreshLoser, pBystander]
      ["swim-0", "fresh-1"] 2 (by decide)).1 (by decide)

/-- Claim C8: if the acting player's id is not the id of the player at
`currentPlayerIndex`, or that player is eliminated, `processPlayerAction`
leaves the state untouched and makes no `finishRound` call — a stale AI
callback firing after the turn moved on is a safe no-op. -/
theorem processPlayerAction_noop (s : GameState) (pid : String) (a : PlayerAction)
    (cardToExchange publicCardToTake : Option Card)
    (hcur : s.currentPlayerIndex < s.players.length)
    (h : s.players[s.currentPlayerIndex].id ≠ pid ∨
         s.players[s.currentPlayerIndex].isEliminated = true) :
    processPlayerAction s pid a cardToExchange publicCardToTake = (s, none) := by
  unfold processPlayerAction
  cases hf : s.players.findIdx? (fun p => p.id = pid) with
  | none => rfl
  | some i =>
    rw [List.findIdx?_eq_some_iff_getElem] at hf
    obtain ⟨hilt, hp, -⟩ := hf
    by_cases hieq : i = s.currentPlayerIndex
    · subst hieq
      have hid : s.players[s.currentPlayerIndex].id = pid := by simpa using hp
      cases h with
      | inl hne => exact absurd hid hne
      | inr helim =>
        simp [List.getElem?_eq_getElem hilt, helim]
    · simp [hieq]

/-- Claim C8, witness: `player-1` acting while seat 0 holds the turn changes
nothing. -/
theorem processPlayerAction_noop_witness :
    processPlayerAction exDealerState "player-1" PlayerAction.skip none none =
      (exDealerState, none) :=
  processPlayerAction_noop exDealerState "player-1" PlayerAction.skip none none
    (by decide) (Or.inl (by decide))

/-- Claim C9: the personalized snapshot shows player `p`'s hand to a viewer
iff `p` is the viewer, or `p` is AI, or the phase is scoring / round-end, and
otherwise replaces it by the empty hand; consequently, outside those phases
two states differing only in another human player's hand produce identical
snapshots for that viewer. -/
theorem getPersonalizedGameState_spec (s : GameState) (viewer : String) :
    (∀ (i : Nat) (hi : i < s.players.length),
        ((getPersonalizedGameState s viewer).players[i]?).map Player.hand =
          some (if s.players[i].id = viewer ∨ s.players[i].isAI = true ∨
                   s.phase = GamePhase.scoring ∨ s.phase = GamePhase.roundEnd
                then s.players[i].hand else [])) ∧
    (∀ (j : Nat) (hj : j < s.players.length) (h2 : List Card),
        s.players[j].id ≠ viewer → s.players[j].isAI = false →
        s.phase ≠ GamePhase.scoring → s.phase ≠ GamePhase.roundEnd →
        getPersonalizedGameState
            { s with players := s.players.set j { s.players[j] with hand := h2 } } viewer =
          getPersonalizedGameState s viewer) := by
  constructor
  · intro i hi
    simp only [getPersonalizedGameState, List.getElem?_map, List.getElem?_eq_getElem hi,
      Option.map_some', Option.some.injEq]
    by_cases h1 : s.players[i].id = viewer
    · simp [h1]
    · by_cases hai : s.players[i].isAI = true
      · simp [h1, hai]
      · by_cases hph : s.phase = GamePhase.scoring ∨ s.phase = GamePhase.roundEnd
        · simp [h1, hai, hph]
        · obtain ⟨hsc, hre⟩ := not_or.mp hph
          simp [h1, hai, hsc, hre]
  · intro j hj h2 hid hai hsc hre
    unfold getPersonalizedGameState
    congr 1
    rw [List.map_set]
    have hval : ∀ (q : Player), q.id = s.players[j].id → q.isAI = s.players[j].isAI →
        (if q.id = viewer ∨ q.isAI = true then q
         else { q with hand := if s.phase = GamePhase.scoring ∨ s.phase = GamePhase.roundEnd
                               then q.hand else [] }) =
          { s.players[j] with hand := ([] : List Card) } → True := fun _ _ _ _ => trivial
    clear hval
    have hcond : ¬(s.players[j].id = viewer ∨ s.players[j].isAI = true) := by
      simp [hid, hai]
    have hphase : ¬(s.phase = GamePhase.scoring ∨ s.phase = GamePhase.roundEnd) := by
      simp [hsc, hre]
    have hfq :
        (if ({ s.players[j] with hand := h2 } : Player).id = viewer ∨
            ({ s.players[j] with hand := h2 } : Player).isAI = true
         then ({ s.players[j] with hand := h2 } : Player)
         else { ({ s.players[j] with hand := h2 } : Player) with
                hand := if s.phase = GamePhase.scoring ∨ s.phase = GamePhase.roundEnd
                        then ({ s.players[j] with hand := h2 } : Player).hand else [] }) =
        (if s.players[j].id = viewer ∨ s.players[j].isAI = true then s.players[j]
         else { s.players[j] with
                hand := if s.phase = GamePhase.scoring ∨ s.phase = GamePhase.roundEnd
                        then s.players[j].hand else [] }) := by
      rw [if_neg hcond, if_neg hcond, if_neg hphase, if_neg hphase]
    rw [hfq]
    have hj2 : j < (s.players.map (fun p =>
          if p.id = viewer ∨ p.isAI = true then p
          else { p with hand := if s.phase = GamePhase.scoring ∨ s.phase = GamePhase.roundEnd
                                then p.hand else [] })).length := by
      simpa using hj
    have hgm : (if s.players[j].id = viewer ∨ s.players[j].isAI = true then s.players[j]
         else { s.players[j] with
                hand := if s.phase = GamePhase.scoring ∨ s.phase = GamePhase.roundEnd
                        then s.players[j].hand else [] }) =
        (s.players.map (fun p =>
          if p.id = viewer ∨ p.isAI = true then p
          else { p with hand := if s.phase = GamePhase.scoring ∨ s.phase = GamePhase.roundEnd
                                then p.hand else [] }))[j] := by
      simp
    rw [hgm, list_set_self]

/-- Claim C9, witness: in the playing phase, emptying the other human's hand
does not change the snapshot `player-0` receives. -/
theorem getPersonalizedGameState_spec_witness :
    getPersonalizedGameState
        { exPlayingState with
          players := exPlayingState.players.set 1 { pActiveB with hand := [] } } "player-0" =
      getPersonalizedGameState exPlayingState "player-0" :=
  (getPersonalizedGameState_spec exPlayingState "player-0").2 1 (by decide) []
    (by decide) (by decide) (by decide) (by decide)

/-- Helper: replacing the element at a valid index is, up to permutation,
removing it and consing the new element. -/
theorem list_set_perm (l : List α) (i : Nat) (x : α) (hi : i < l.length) :
    (l.set i x).Perm (x :: l.eraseIdx i) := by
  rw [List.set_eq_take_cons_drop x hi, List.eraseIdx_eq_take_drop_succ]
  exact List.perm_middle

/-- Helper: a list is, up to permutation, any one element consed onto the
rest. -/
theorem list_getElem_erase_perm (l : List α) (i : Nat) (hi : i < l.length) :
    l.Perm (l[i] :: l.eraseIdx i) := by
  conv_lhs => rw [← list_set_self l i hi]
  exact list_set_perm l i l[i] hi

/-- Helper: flattening after replacing one block is, up to permutation, the
new block next to the flattening of the remaining blocks. -/
theorem flatten_set_perm (H : List (List α)) (i : Nat) (x : List α) (hi : i < H.length) :
    ((H.set i x).flatten).Perm (x ++ (H.eraseIdx i).flatten) := by
  rw [List.set_eq_take_cons_drop x hi, List.eraseIdx_eq_take_drop_succ,
    List.flatten_append, List.flatten_cons, List.flatten_append]
  exact List.perm_append_comm_assoc _ _ _

/-- Helper: a flattening splits off any one block up to permutation. -/
theorem flatten_getElem_perm (H : List (List α)) (i : Nat) (hi : i < H.length) :
    H.flatten.Perm (H[i] ++ (H.eraseIdx i).flatten) := by
  conv_lhs => rw [← list_set_self H i hi]
  exact flatten_set_perm H i H[i] hi

/-- Helper: multiset form of `flatten_set_perm`. -/
theorem coe_flatten_set (H : List (List α)) (i : Nat) (x : List α) (hi : i < H.length) :
    (((H.set i x).flatten : List α) : Multiset α) = ↑x + ↑((H.eraseIdx i).flatten) := by
  rw [show (((H.set i x).flatten : List α) : Multiset α) = ↑(x ++ (H.eraseIdx i).flatten) from
    Multiset.coe_eq_coe.mpr (flatten_set_perm H i x hi), ← Multiset.coe_add]

/-- Helper: multiset form of `flatten_getElem_perm`. -/
theorem coe_flatten_getElem (H : List (List α)) (i : Nat) (hi : i < H.length) :
    ((H.flatten : List α) : Multiset α) = ↑(H[i]) + ↑((H.eraseIdx i).flatten) := by
  rw [show ((H.flatten : List α) : Multiset α) = ↑(H[i] ++ (H.eraseIdx i).flatten) from
    Multiset.coe_eq_coe.mpr (flatten_getElem_perm H i hi), ← Multiset.coe_add]

/-- Helper: multiset form of `list_set_perm`. -/
theorem coe_list_set (l : List α) (i : Nat) (x : α) (hi : i < l.length) :
    ((l.set i x : List α) : Multiset α) = {x} + ↑(l.eraseIdx i) := by
  rw [show ((l.set i x : List α) : Multiset α) = ↑(x :: l.eraseIdx i) from
    Multiset.coe_eq_coe.mpr (list_set_perm l i x hi), ← Multiset.cons_coe,
    ← Multiset.singleton_add]

/-- Helper: multiset form of `list_getElem_erase_perm`. -/
theorem coe_list_getElem_erase (l : List α) (i : Nat) (hi : i < l.length) :
    ((l : List α) : Multiset α) = {l[i]} + ↑(l.eraseIdx i) := by
  rw [show ((l : List α) : Multiset α) = ↑(l[i] :: l.eraseIdx i) from
    Multiset.coe_eq_coe.mpr (list_getElem_erase_perm l i hi), ← Multiset.cons_coe,
    ← Multiset.singleton_add]

/-- Claim C10: for the in-turn, non-eliminated player, the card-manipulation
step of `processPlayerAction` (skip, exchange-one, exchange-all, close-round)
preserves the combined multiset of card ids across all hands, the public
cards, and the deck. -/
theorem applyAction_preserves_cards (s : GameState) (pid : String) (a : PlayerAction)
    (cardToExchange publicCardToTake : Option Card) (player : Player)
    (hp : s.players[s.currentPlayerIndex]? = some player)
    (_helim : player.isEliminated = false) :
    ((allCards (applyAction s s.currentPlayerIndex player pid a
        cardToExchange publicCardToTake)).map Card.id).Perm
      ((allCards s).map Card.id) := by
  apply List.Perm.map
  have hcur : s.currentPlayerIndex < s.players.length := by
    rcases Nat.lt_or_ge s.currentPlayerIndex s.players.length with h | h
    · exact h
    · rw [List.getElem?_eq_none h] at hp; cases hp
  have hpv : s.players[s.currentPlayerIndex] = player := by
    rw [List.getElem?_eq_getElem hcur] at hp
    exact Option.some.inj hp
  have hcur2 : s.currentPlayerIndex < (s.players.map Player.hand).length := by
    simpa using hcur
  have hH : (s.players.map Player.hand)[s.currentPlayerIndex] = player.hand := by
    simp [hpv]
  cases a with
  | skip => exact List.Perm.refl _
  | closeRound =>
    unfold allCards applyAction
    simp only [List.map_set]
    rw [show ({ player with hasClosedRound := true } : Player).hand
        = (s.players.map Player.hand)[s.currentPlayerIndex] from hH.symm,
      list_set_self _ _ hcur2]
  | exchangeAll =>
    unfold allCards applyAction
    simp only [List.map_set]
    rw [← Multiset.coe_eq_coe]
    simp only [← Multiset.coe_add]
    rw [coe_flatten_set _ _ _ hcur2, coe_flatten_getElem _ _ hcur2, hH]
    abel
  | exchangeOne =>
    cases cardToExchange with
    | none => exact List.Perm.refl _
    | some ce =>
      cases publicCardToTake with
      | none => exact List.Perm.refl _
      | some pc =>
        cases hfi : player.hand.findIdx? (fun c => c.id = ce.id) with
        | none =>
          unfold allCards applyAction
          simp only [hfi]
          exact List.Perm.refl _
        | some hi =>
          cases hpi : s.publicCards.findIdx? (fun c => c.id = pc.id) with
          | none =>
            unfold allCards applyAction
            simp only [hfi, hpi]
            exact List.Perm.refl _
          | some pi =>
            have hhi : hi < player.hand.length :=
              (List.findIdx?_eq_some_iff_getElem.mp hfi).fst
            have hpib : pi < s.publicCards.length :=
              (List.findIdx?_eq_some_iff_getElem.mp hpi).fst
            unfold allCards applyAction
            simp only [hfi, hpi, List.getElem?_eq_getElem hhi,
              List.getElem?_eq_getElem hpib, List.map_set]
            rw [← Multiset.coe_eq_coe]
            simp only [← Multiset.coe_add]
            rw [coe_flatten_set _ _ _ hcur2, coe_flatten_getElem _ _ hcur2, hH,
              coe_list_set _ _ _ hhi, coe_list_set _ _ _ hpib,
              coe_list_getElem_erase player.hand hi hhi,
              coe_list_getElem_erase s.publicCards pi hpib]
            abel

/-- Claim C10, witness: the in-turn player at seat 1 exchanging their whole
hand with the public pool permutes, but does not change, the pooled card
ids. -/
theorem applyAction_preserves_cards_witness :
    ((allCards (applyAction exPlayingState exPlayingState.currentPlayerIndex pActiveB
        "player-1" PlayerAction.exchangeAll none none)).map Card.id).Perm
      ((allCards exPlayingState).map Card.id) :=
  applyAction_preserves_cards exPlayingState "player-1" PlayerAction.exchangeAll
    none none pActiveB (by decide) (by decide)

/-- Claim C4, counterexample: with two active three-aces holders (all hands
3 cards), the claim instantiated at the second holder fails — `find?` credits
the first holder, and the second holder is put among the losers. -/
theorem determineRoundResults_two_trips_counterexample :
    (hasThreeAces pTripsSecond.hand = true ∧ pTripsSecond.isEliminated = false ∧
      (∀ p ∈ [pTripsFirst, pTripsSecond], p.isEliminated = false → p.hand.length = 3)) ∧
    (determineRoundResults [pTripsFirst, pTripsSecond]).map (fun r => r.threeAcesPlayerId)
      = Except.ok (some "trips-0") ∧
    pTripsSecond.id ≠ "trips-0" ∧
    (determineRoundResults [pTripsFirst, pTripsSecond]).map (fun r => r.loserIds)
      = Except.ok ["trips-1"] := by
  refine ⟨⟨by decide, by decide, by decide⟩, by decide, by decide, by decide⟩

/-- Helper: a 3-card hand always scores without raising. -/
theorem calculateScore_isOk (hand : List Card) (h : hand.length = 3) :
    ∃ r, calculateScore hand = Except.ok r := by
  obtain ⟨c0, c1, c2, rfl⟩ := List.length_eq_three.mp h
  simp only [calculateScore]
  split_ifs <;> exact ⟨_, rfl⟩

/-- Helper: a map whose steps all succeed succeeds as a whole. -/
theorem mapExcept_isOk (f : α → Except String β) (l : List α)
    (h : ∀ x ∈ l, ∃ y, f x = Except.ok y) : ∃ ys, mapExcept f l = Except.ok ys := by
  induction l with
  | nil => exact ⟨[], rfl⟩
  | cons x xs ih =>
    obtain ⟨y, hy⟩ := h x (by simp)
    obtain ⟨ys, hys⟩ := ih (fun a ha => h a (by simp [ha]))
    exact ⟨y :: ys, by simp [mapExcept, hy, hys, Except.map]⟩

/-- Claim C4 (amended): if every player (the source scores eliminated hands
too) holds exactly 3 cards, some active player `A` holds three aces, and no
other active player does, then `determineRoundResults` reports `A` as the
three-aces winner and the losers are exactly the active players other than
`A`, irrespective of their scores. -/
theorem determineRoundResults_three_aces (players : List Player) (A : Player)
    (hmem : A ∈ players) (hactive : A.isEliminated = false)
    (htrips : hasThreeAces A.hand = true)
    (huniq : ∀ p ∈ players, p.isEliminated = false → p.id ≠ A.id →
      hasThreeAces p.hand = false)
    (hhands : ∀ p ∈ players, p.hand.length = 3) :
    ∃ r, determineRoundResults players = Except.ok r ∧
      r.threeAcesPlayerId = some A.id ∧
      r.loserIds = ((players.filter (fun p => !p.isEliminated)).filter
          (fun p => p.id ≠ A.id)).map (fun p => p.id) := by
  have hAact : A ∈ players.filter (fun p => !p.isEliminated) := by
    simp [List.mem_filter, hmem, hactive]
  cases hfind : (players.filter (fun p => !p.isEliminated)).find?
      (fun p => hasThreeAces p.hand) with
  | none =>
    rw [List.find?_eq_none] at hfind
    exact absurd htrips (by simpa using hfind A hAact)
  | some w =>
    have hw : hasThreeAces w.hand = true := by simpa using List.find?_some hfind
    have hwmem : w ∈ players.filter (fun p => !p.isEliminated) :=
      List.mem_of_find?_eq_some hfind
    have hwp : w ∈ players ∧ w.isEliminated = false := by
      have := List.mem_filter.mp hwmem
      exact ⟨this.1, by simpa using this.2⟩
    have hwid : w.id = A.id := by
      by_contra hne
      rw [huniq w hwp.1 hwp.2 hne] at hw
      cases hw
    obtain ⟨scores, hscores⟩ := mapExcept_isOk scoreWithId players
      (fun p hp => by
        obtain ⟨r, hr⟩ := calculateScore_isOk p.hand (hhands p hp)
        exact ⟨{ r with playerId := p.id }, by simp [scoreWithId, hr, Except.map]⟩)
    refine ⟨{ scores := scores,
              loserIds := ((players.filter (fun p => !p.isEliminated)).filter
                  (fun p => p.id ≠ w.id)).map (fun p => p.id),
              threeAcesPlayerId := some w.id }, ?_, by simp [hwid], by simp [hwid]⟩
    simp only [determineRoundResults, hfind, hscores, Except.map]

/-- Claim C4, witness: a unique three-aces holder among one other active
player and one eliminated (but 3-card-holding) player. -/
theorem determineRoundResults_three_aces_witness :
    (determineRoundResults [pTripsFirst, pActiveB, pElimWithHand]).map
        (fun r => r.threeAcesPlayerId) = Except.ok (some "trips-0") ∧
    (determineRoundResults [pTripsFirst, pActiveB, pElimWithHand]).map
        (fun r => r.loserIds) = Except.ok ["player-1"] := by
  obtain ⟨r, hr, h1, h2⟩ := determineRoundResults_three_aces
    [pTripsFirst, pActiveB, pElimWithHand] pTripsFirst
    (by decide) (by decide) (by decide) (by decide) (by decide)
  rw [hr]
  refine ⟨?_, ?_⟩
  · rw [show ((Except.ok r : Except String RoundResult).map (fun r => r.threeAcesPlayerId))
        = Except.ok r.threeAcesPlayerId from rfl, h1]
    decide
  · rw [show ((Except.ok r : Except String RoundResult).map (fun r => r.loserIds))
        = Except.ok r.loserIds from rfl, h2]
    decide

/-- Helper: one 3-card slice followed by the rest of the deck is the deck
from that position. -/
theorem slice_append_drop (l : List Card) (i : Nat) :
    slice l i (i + 3) ++ l.drop (i + 3) = l.drop i := by
  unfold slice
  rw [show i + 3 - i = 3 from by omega, ← List.drop_drop]
  exact List.take_append_drop 3 (l.drop i)

/-- Helper: a 3-card slice inside the deck really has 3 cards. -/
theorem slice_length (l : List Card) (i : Nat) (h : i + 3 ≤ l.length) :
    (slice l i (i + 3)).length = 3 := by
  unfold slice
  rw [List.length_take, List.length_drop]
  omega

/-- Helper: the dealing loop only moves its index forward. -/
theorem dealHandsAux_le (shuffled : List Card) :
    ∀ (players : List Player) (idx : Nat), idx ≤ (dealHandsAux shuffled players idx).2 := by
  intro players
  induction players with
  | nil => intro idx; exact Nat.le_refl idx
  | cons p rest ih =>
    intro idx
    by_cases hd : (!p.isDealer && !p.isEliminated) = true
    · simp only [dealHandsAux, hd, if_true]
      exact Nat.le_trans (by omega) (ih (idx + 3))
    · simp only [dealHandsAux, hd, if_false]
      exact ih idx

/-- Helper: the dealing loop advances its index by exactly 3 per non-dealer,
non-eliminated player. -/
theorem dealHandsAux_final (shuffled : List Card) :
    ∀ (players : List Player) (idx : Nat),
      (dealHandsAux shuffled players idx).2 =
        idx + 3 * (players.filter (fun p => !p.isDealer && !p.isEliminated)).length := by
  intro players
  induction players with
  | nil => intro idx; simp [dealHandsAux]
  | cons p rest ih =>
    intro idx
    by_cases hd : (!p.isDealer && !p.isEliminated) = true
    · simp only [dealHandsAux, hd, if_true, List.filter_cons, List.length_cons]
      rw [ih (idx + 3)]
      omega
    · simp only [dealHandsAux, hd, if_false, List.filter_cons]
      exact ih idx

/-- Helper: the dealt hands concatenated, followed by the deck from the final
index, reconstruct the deck from the start index. -/
theorem dealHandsAux_flatten (shuffled : List Card) :
    ∀ (players : List Player) (idx : Nat),
      (((dealHandsAux shuffled players idx).1.map Prod.snd).flatten
        ++ shuffled.drop (dealHandsAux shuffled players idx).2) = shuffled.drop idx := by
  intro players
  induction players with
  | nil => intro idx; simp [dealHandsAux]
  | cons p rest ih =>
    intro idx
    by_cases hd : (!p.isDealer && !p.isEliminated) = true
    · simp only [dealHandsAux, hd, if_true, List.map_cons, List.flatten_cons,
        List.append_assoc]
      rw [ih (idx + 3)]
      exact slice_append_drop shuffled idx
    · simp only [dealHandsAux, hd, if_false]
      exact ih idx

/-- Helper: looking up a dealt non-dealer, non-eliminated player (ids unique)
finds a hand that is one 3-card slice of the deck, lying before the final
index. -/
theorem dealHandsAux_lookup (shuffled : List Card) :
    ∀ (players : List Player) (idx : Nat),
      (players.map Player.id).Nodup →
      ∀ p ∈ players, p.isDealer = false → p.isEliminated = false →
      ∃ j, idx ≤ j ∧ j + 3 ≤ (dealHandsAux shuffled players idx).2 ∧
        (dealHandsAux shuffled players idx).1.lookup p.id =
          some (slice shuffled j (j + 3)) := by
  intro players
  induction players with
  | nil => intro idx _ p hp; cases hp
  | cons q rest ih =>
    intro idx hnod p hp hpd hpe
    have hnod2 : (rest.map Player.id).Nodup := (List.nodup_cons.mp hnod).2
    have hqrest : q.id ∉ rest.map Player.id := (List.nodup_cons.mp hnod).1
    rcases List.mem_cons.mp hp with rfl | hprest
    · have hq : (!p.isDealer && !p.isEliminated) = true := by simp [hpd, hpe]
      simp only [dealHandsAux, hq, if_true]
      refine ⟨idx, Nat.le_refl idx, ?_, ?_⟩
      · exact Nat.le_trans (by omega) (dealHandsAux_le shuffled rest (idx + 3))
      · simp [List.lookup]
    · have hpq : p.id ≠ q.id := by
        intro he
        exact hqrest (he ▸ List.mem_map_of_mem Player.id hprest)
      by_cases hq : (!q.isDealer && !q.isEliminated) = true
      · simp only [dealHandsAux, hq, if_true]
        obtain ⟨j, hj1, hj2, hj3⟩ := ih (idx + 3) hnod2 p hprest hpd hpe
        refine ⟨j, by omega, hj2, ?_⟩
        simp only [List.lookup]
        rw [show (p.id == q.id) = false from by simp [hpq]]
        exact hj3
      · simp only [dealHandsAux, hq, if_false]
        obtain ⟨j, hj1, hj2, hj3⟩ := ih idx hnod2 p hprest hpd hpe
        exact ⟨j, hj1, hj2, hj3⟩

/-- Helper: a list with at most one element has all members equal. -/
theorem mem_eq_of_length_le_one {l : List α} (h : l.length ≤ 1)
    (ha : a ∈ l) (hb : b ∈ l) : a = b := by
  cases l with
  | nil => cases ha
  | cons x xs =>
    cases xs with
    | nil =>
      rw [List.mem_singleton.mp ha, List.mem_singleton.mp hb]
    | cons y ys => simp at h

/-- Claim C7: for a 32-card deck of distinct ids dealt to a room with unique
player ids, at most one dealer, and enough cards for everyone, `dealCards`
gives each non-dealer, non-eliminated player a 3-card hand, builds two 3-card
dealer sets iff an active dealer exists (else empty sets), reconstructs the
deck exactly as hands ++ dealer sets ++ remaining deck (hence never assigns
one card id twice), keeps all card ids distinct, and keeps the total at 32. -/
theorem dealCards_spec (players : List Player) (shuffled : List Card)
    (hlen : shuffled.length = 32)
    (hnod : (shuffled.map Card.id).Nodup)
    (hpid : (players.map Player.id).Nodup)
    (hone : (players.filter (fun p => p.isDealer)).length ≤ 1)
    (hcap : 3 * (players.filter (fun p => !p.isDealer && !p.isEliminated)).length + 6 ≤ 32) :
    (∀ p ∈ players, p.isDealer = false → p.isEliminated = false →
        ∃ h, (dealCards players shuffled).playerHands.lookup p.id = some h ∧
          h.length = 3) ∧
    ((∃ d ∈ players, d.isDealer = true ∧ d.isEliminated = false) →
        (dealCards players shuffled).dealerSets.1.length = 3 ∧
        (dealCards players shuffled).dealerSets.2.length = 3) ∧
    ((∀ d ∈ players, d.isDealer = true → d.isEliminated = true) →
        (dealCards players shuffled).dealerSets = ([], [])) ∧
    (((dealCards players shuffled).playerHands.map Prod.snd).flatten
        ++ (dealCards players shuffled).dealerSets.1
        ++ (dealCards players shuffled).dealerSets.2
        ++ (dealCards players shuffled).deck = shuffled) ∧
    ((((dealCards players shuffled).playerHands.map Prod.snd).flatten
        ++ (dealCards players shuffled).dealerSets.1
        ++ (dealCards players shuffled).dealerSets.2
        ++ (dealCards players shuffled).deck).map Card.id).Nodup ∧
    (((dealCards players shuffled).playerHands.map Prod.snd).flatten
        ++ (dealCards players shuffled).dealerSets.1
        ++ (dealCards players shuffled).dealerSets.2
        ++ (dealCards players shuffled).deck).length = 32 := by
  have hfin := dealHandsAux_final shuffled players 0
  have hflat := dealHandsAux_flatten shuffled players 0
  rw [List.drop_zero] at hflat
  have hfin32 : (dealHandsAux shuffled players 0).2 + 6 ≤ 32 := by omega
  have hhands : ∀ p ∈ players, p.isDealer = false → p.isEliminated = false →
      ∃ h, (dealCards players shuffled).playerHands.lookup p.id = some h ∧ h.length = 3 := by
    intro p hp hpd hpe
    obtain ⟨j, hj1, hj2, hj3⟩ := dealHandsAux_lookup shuffled players 0 hpid p hp hpd hpe
    have hph : (dealCards players shuffled).playerHands = (dealHandsAux shuffled players 0).1 := by
      unfold dealCards
      cases players.find? (fun p => p.isDealer) with
      | none => rfl
      | some dealer =>
        by_cases hde : (!dealer.isEliminated) = true
        · simp [hde]
        · simp [hde]
    rw [hph, hj3]
    exact ⟨_, rfl, slice_length shuffled j (by omega)⟩
  have hc3 : (((dealCards players shuffled).playerHands.map Prod.snd).flatten
      ++ (dealCards players shuffled).dealerSets.1
      ++ (dealCards players shuffled).dealerSets.2
      ++ (dealCards players shuffled).deck = shuffled) := by
    unfold dealCards
    cases hw : players.find? (fun p => p.isDealer) with
    | none => simpa using hflat
    | some w =>
      by_cases hde : (!w.isEliminated) = true
      · simp only [hde, if_true]
        rw [List.append_assoc, List.append_assoc,
          show (dealHandsAux shuffled players 0).2 + 3 + 3
            = (dealHandsAux shuffled players 0).2 + 6 from by omega]
        rw [show slice shuffled ((dealHandsAux shuffled players 0).2 + 3)
              ((dealHandsAux shuffled players 0).2 + 3 + 3)
            ++ shuffled.drop ((dealHandsAux shuffled players 0).2 + 3 + 3)
            = shuffled.drop ((dealHandsAux shuffled players 0).2 + 3) from
          slice_append_drop shuffled ((dealHandsAux shuffled players 0).2 + 3)]
        rw [show slice shuffled (dealHandsAux shuffled players 0).2
              ((dealHandsAux shuffled players 0).2 + 3)
            ++ shuffled.drop ((dealHandsAux shuffled players 0).2 + 3)
            = shuffled.drop (dealHandsAux shuffled players 0).2 from
          slice_append_drop shuffled (dealHandsAux shuffled players 0).2]
        exact hflat
      · simp only [hde, Bool.false_eq_true, if_false]
        simpa using hflat
  refine ⟨hhands, ?_, ?_, hc3, by rw [hc3]; exact hnod, by rw [hc3]; exact hlen⟩
  case _ =>
    rintro ⟨d, hd, hdd, hde⟩
    have hfd : ∃ w, players.find? (fun p => p.isDealer) = some w := by
      cases hw : players.find? (fun p => p.isDealer) with
      | none =>
        rw [List.find?_eq_none] at hw
        exact absurd hdd (by simpa using hw d hd)
      | some w => exact ⟨w, rfl⟩
    obtain ⟨w, hw⟩ := hfd
    have hwd : w.isDealer = true := by simpa using List.find?_some hw
    have hwmem : w ∈ players := List.mem_of_find?_eq_some hw
    have hweq : w = d := by
      refine mem_eq_of_length_le_one hone ?_ ?_ <;>
        simp [List.mem_filter, hwmem, hwd, hd, hdd]
    simp only [dealCards, hw]
    rw [show (!w.isEliminated) = true from by simp [hweq, hde]]
    simp only [if_true]
    constructor
    · exact slice_length shuffled _ (by omega)
    · exact slice_length shuffled _ (by omega)
  case _ =>
    intro hall
    cases hw : players.find? (fun p => p.isDealer) with
    | none => simp only [dealCards, hw]
    | some w =>
      have hwd : w.isDealer = true := by simpa using List.find?_some hw
      have hwmem : w ∈ players := List.mem_of_find?_eq_some hw
      simp only [dealCards, hw]
      rw [show (!w.isEliminated) = false from by simp [hall w hwmem hwd]]
      simp only [Bool.false_eq_true, if_false]

/-- Claim C7, witness: dealing the full deck (in `createDeck` order) to a
4-player room — active dealer, two active non-dealers, one eliminated player
— reconstructs the deck exactly and keeps ids distinct. -/
theorem dealCards_spec_witness :
    (((dealCards [pActiveA, pActiveB, pAiC, pElimE] createDeck).playerHands.map
          Prod.snd).flatten
        ++ (dealCards [pActiveA, pActiveB, pAiC, pElimE] createDeck).dealerSets.1
        ++ (dealCards [pActiveA, pActiveB, pAiC, pElimE] createDeck).dealerSets.2
        ++ (dealCards [pActiveA, pActiveB, pAiC, pElimE] createDeck).deck = createDeck) ∧
    ((((dealCards [pActiveA, pActiveB, pAiC, pElimE] createDeck).playerHands.map
          Prod.snd).flatten
        ++ (dealCards [pActiveA, pActiveB, pAiC, pElimE] createDeck).dealerSets.1
        ++ (dealCards [pActiveA, pActiveB, pAiC, pElimE] createDeck).dealerSets.2
        ++ (dealCards [pActiveA, pActiveB, pAiC, pElimE] createDeck).deck).map
          Card.id).Nodup := by
  have h := dealCards_spec [pActiveA, pActiveB, pAiC, pElimE] createDeck
    (by decide) (by decide) (by decide) (by decide) (by decide)
  exact ⟨h.2.2.2.1, h.2.2.2.2.1⟩

/-- Helper: closed form of the circular walk.  Starting `d` seats before the
closer (circularly), with enough fuel, the walk collects exactly the `d`
players following the start seat in circular order. -/
theorem collectAfterAux_eq (players : List Player) (ci : Nat) (hci : ci < players.length) :
    ∀ (d i fuel : Nat), i < players.length → d < players.length →
      (i + d = ci ∨ i + d = ci + players.length) → d ≤ fuel →
      collectAfterAux players ci fuel i =
        (players.drop i ++ players.take i).take d := by
  intro d
  induction d with
  | zero =>
    intro i fuel hi _ heq _
    have hieq : i = ci := by omega
    subst hieq
    cases fuel with
    | zero => simp [collectAfterAux]
    | succ f => simp [collectAfterAux]
  | succ d ih =>
    intro i fuel hi hd heq hfuel
    have hine : i ≠ ci := by omega
    cases fuel with
    | zero => omega
    | succ f =>
      simp only [collectAfterAux, if_neg hine, List.getElem?_eq_getElem hi]
      rw [List.drop_eq_getElem_cons hi]
      simp only [List.cons_append, List.take_succ_cons, List.cons.injEq, true_and]
      by_cases hn : i + 1 < players.length
      · have hnext : getNextPlayerIndex i players.length = i + 1 := by
          unfold getNextPlayerIndex
          exact Nat.mod_eq_of_lt hn
        rw [hnext, ih (i + 1) f hn (by omega) (by omega) (by omega)]
        rw [List.take_succ, List.getElem?_eq_getElem hi]
        rw [← List.append_assoc]
        rw [List.take_append_of_le_length (by
          simp only [List.length_append, List.length_drop, List.length_take]
          omega)]
      · have hieq : i + 1 = players.length := by omega
        have hnext : getNextPlayerIndex i players.length = 0 := by
          unfold getNextPlayerIndex
          rw [hieq]
          exact Nat.mod_self _
        have hd0 : 0 + d = ci := by omega
        rw [hnext, ih 0 f (by omega) (by omega) (Or.inl hd0) (by omega)]
        rw [hieq, List.drop_length]
        simp only [List.drop_zero, List.take_zero, List.append_nil, List.nil_append]
        rw [List.take_take, Nat.min_eq_left (by omega)]

/-- Helper: `getPlayersAfterRoundCloser` is exactly the seats after the
closer, wrapping around to just before the closer. -/
theorem getPlayersAfterRoundCloser_eq (s : GameState) (closerId : String) (ci : Nat)
    (hcl : s.roundClosedByPlayerId = some closerId)
    (hfind : s.players.findIdx? (fun p => p.id = closerId) = some ci) :
    getPlayersAfterRoundCloser s = s.players.drop (ci + 1) ++ s.players.take ci := by
  have hci : ci < s.players.length := (List.findIdx?_eq_some_iff_getElem.mp hfind).fst
  simp only [getPlayersAfterRoundCloser, hcl, hfind]
  by_cases hn : ci + 1 < s.players.length
  · have hnext : getNextPlayerIndex ci s.players.length = ci + 1 := by
      unfold getNextPlayerIndex
      exact Nat.mod_eq_of_lt hn
    rw [hnext, collectAfterAux_eq s.players ci hci (s.players.length - 1) (ci + 1)
      s.players.length hn (by omega) (Or.inr (by omega)) (by omega)]
    rw [List.take_succ, List.getElem?_eq_getElem hci, ← List.append_assoc]
    rw [List.take_append_of_le_length (by
      simp only [List.length_append, List.length_drop, List.length_take]
      omega)]
    exact List.take_of_length_le (by
      simp only [List.length_append, List.length_drop, List.length_take]
      omega)
  · have hieq : ci + 1 = s.players.length := by omega
    have hnext : getNextPlayerIndex ci s.players.length = 0 := by
      unfold getNextPlayerIndex
      rw [hieq]
      exact Nat.mod_self _
    rw [hnext, collectAfterAux_eq s.players ci hci ci 0 s.players.length
      (by omega) (by omega) (Or.inl (by omega)) (by omega)]
    rw [hieq, List.drop_length]
    simp

/-- Helper: finding a player by id only depends on the id column. -/
theorem findIdx?_congr_ids (l1 l2 : List Player) (c : String)
    (h : l1.map Player.id = l2.map Player.id) :
    l1.findIdx? (fun p => p.id = c) = l2.findIdx? (fun p => p.id = c) := by
  have h1 : l1.findIdx? (fun p => p.id = c)
      = (l1.map Player.id).findIdx? (fun x => x = c) := by
    rw [List.findIdx?_map]
    rfl
  have h2 : l2.findIdx? (fun p => p.id = c)
      = (l2.map Player.id).findIdx? (fun x => x = c) := by
    rw [List.findIdx?_map]
    rfl
  rw [h1, h2, h]

/-- Helper: any action other than `close-round` leaves the phase, the closer,
the acted-after-close set, the current index, and the id column of the player
list unchanged (only hands and the public pool can move). -/
theorem applyAction_preserves (s : GameState) (player : Player) (pid : String)
    (action : PlayerAction) (c1 c2 : Option Card)
    (hp : s.players[s.currentPlayerIndex]? = some player)
    (hact : action ≠ PlayerAction.closeRound) :
    (applyAction s s.currentPlayerIndex player pid action c1 c2).phase = s.phase ∧
    (applyAction s s.currentPlayerIndex player pid action c1 c2).roundClosedByPlayerId
      = s.roundClosedByPlayerId ∧
    (applyAction s s.currentPlayerIndex player pid action c1 c2).playersWhoActedAfterClose
      = s.playersWhoActedAfterClose ∧
    (applyAction s s.currentPlayerIndex player pid action c1 c2).currentPlayerIndex
      = s.currentPlayerIndex ∧
    (applyAction s s.currentPlayerIndex player pid action c1 c2).players.map Player.id
      = s.players.map Player.id := by
  have hcur : s.currentPlayerIndex < s.players.length := by
    rcases Nat.lt_or_ge s.currentPlayerIndex s.players.length with h | h
    · exact h
    · rw [List.getElem?_eq_none h] at hp; cases hp
  have hpv : s.players[s.currentPlayerIndex] = player := by
    rw [List.getElem?_eq_getElem hcur] at hp
    exact Option.some.inj hp
  have hcur2 : s.currentPlayerIndex < (s.players.map Player.id).length := by
    simpa using hcur
  have hmap : ∀ q : Player, q.id = player.id →
      (s.players.set s.currentPlayerIndex q).map Player.id = s.players.map Player.id := by
    intro q hq
    rw [List.map_set, hq,
      show player.id = (s.players.map Player.id)[s.currentPlayerIndex] from by simp [hpv],
      list_set_self _ _ hcur2]
  cases action with
  | closeRound => exact absurd rfl hact
  | skip => exact ⟨rfl, rfl, rfl, rfl, rfl⟩
  | exchangeAll => exact ⟨rfl, rfl, rfl, rfl, hmap _ rfl⟩
  | exchangeOne =>
    cases c1 with
    | none => exact ⟨rfl, rfl, rfl, rfl, rfl⟩
    | some ce =>
      cases c2 with
      | none => exact ⟨rfl, rfl, rfl, rfl, rfl⟩
      | some pc =>
        cases hfi : player.hand.findIdx? (fun c => c.id = ce.id) with
        | none => simp [applyAction, hfi]
        | some hi =>
          cases hpj : s.publicCards.findIdx? (fun c => c.id = pc.id) with
          | none => simp [applyAction, hfi, hpj]
          | some pj =>
            have hhi : hi < player.hand.length :=
              (List.findIdx?_eq_some_iff_getElem.mp hfi).fst
            have hpjb : pj < s.publicCards.length :=
              (List.findIdx?_eq_some_iff_getElem.mp hpj).fst
            simp only [applyAction, hfi, hpj, List.getElem?_eq_getElem hhi,
              List.getElem?_eq_getElem hpjb]
            exact ⟨trivial, trivial, trivial, trivial, hmap _ rfl⟩

/-- Helper: the all-acted test of `lastRoundStep` succeeds exactly when every
player id other than the closer's (those after the closer in circular seating
order) is in the updated acted-after-close set. -/
theorem lastRoundStep_allActed (s2 : GameState) (playerId closerId : String) (ci : Nat)
    (hcl2 : s2.roundClosedByPlayerId = some closerId)
    (hfind2 : s2.players.findIdx? (fun p => p.id = closerId) = some ci) :
    (lastRoundStep s2 playerId).2 = some FinishCall.allActed ↔
      ∀ q ∈ (s2.players.map Player.id).drop (ci + 1) ++ (s2.players.map Player.id).take ci,
        q ∈ setAdd s2.playersWhoActedAfterClose playerId := by
  have hgp := getPlayersAfterRoundCloser_eq
    { s2 with playersWhoActedAfterClose := setAdd s2.playersWhoActedAfterClose playerId }
    closerId ci hcl2 hfind2
  simp only [lastRoundStep, hgp]
  have hmemiff : (∀ p ∈ s2.players.drop (ci + 1) ++ s2.players.take ci,
        p.id ∈ setAdd s2.playersWhoActedAfterClose playerId) ↔
      (∀ q ∈ (s2.players.map Player.id).drop (ci + 1) ++ (s2.players.map Player.id).take ci,
        q ∈ setAdd s2.playersWhoActedAfterClose playerId) := by
    rw [← List.map_drop, ← List.map_take, ← List.map_append, List.forall_mem_map]
  by_cases hall : (s2.players.drop (ci + 1) ++ s2.players.take ci).all
      (fun p => p.id ∈ setAdd s2.playersWhoActedAfterClose playerId) = true
  · rw [if_pos hall]
    refine iff_of_true rfl (hmemiff.mp ?_)
    intro p hp
    exact of_decide_eq_true (List.all_eq_true.mp hall p hp)
  · rw [if_neg hall]
    refine iff_of_false (by simp) ?_
    intro hforall
    refine hall (List.all_eq_true.mpr ?_)
    intro p hp
    exact decide_eq_true (hmemiff.mpr hforall p hp)

/-- Claim C5: in `last-round` with the closer found at seat `ci`, an
in-turn, non-eliminated actor's action (other than a re-close, and not
completing three aces) makes `processPlayerAction` call `finishRound` via the
all-acted path exactly when every player id other than the closer's — walking
the seating order circularly from the seat after the closer — is recorded in
`playersWhoActedAfterClose` after the actor is added.  In particular the
round never reaches scoring through this path earlier. -/
theorem processPlayerAction_close_completeness (s : GameState) (playerId : String)
    (action : PlayerAction) (cardToExchange publicCardToTake : Option Card)
    (closerId : String) (ci : Nat) (player : Player)
    (hphase : s.phase = GamePhase.lastRound)
    (hcl : s.roundClosedByPlayerId = some closerId)
    (hfindci : s.players.findIdx? (fun p => p.id = closerId) = some ci)
    (hact : action ≠ PlayerAction.closeRound)
    (hcur : s.players.findIdx? (fun p => p.id = playerId) = some s.currentPlayerIndex)
    (hp : s.players[s.currentPlayerIndex]? = some player)
    (helim : player.isEliminated = false)
    (hnotrips : hasThreeAces ((((applyAction s s.currentPlayerIndex player playerId action
        cardToExchange publicCardToTake).players[s.currentPlayerIndex]?).map
          Player.hand).getD []) = false) :
    (processPlayerAction s playerId action cardToExchange publicCardToTake).2
        = some FinishCall.allActed ↔
      ∀ q ∈ (s.players.map Player.id).drop (ci + 1) ++ (s.players.map Player.id).take ci,
        q ∈ setAdd s.playersWhoActedAfterClose playerId := by
  obtain ⟨e1, e2, e3, e4, e5⟩ :=
    applyAction_preserves s player playerId action cardToExchange publicCardToTake hp hact
  simp only [processPlayerAction, hcur, hp, helim, hnotrips, ne_eq, not_true_eq_false,
    Bool.false_eq_true, if_false, ite_false]
  rw [if_pos (e1.trans hphase)]
  refine (lastRoundStep_allActed _ playerId closerId ci (by exact e2.trans hcl)
    (by exact ((findIdx?_congr_ids _ s.players closerId e5).trans hfindci))).trans ?_
  constructor
  · intro h q hq
    have h2 := h q (by simpa only [e5] using hq)
    simpa only [e3] using h2
  · intro h q hq
    have h2 := h q (by simpa only [e5] using hq)
    simpa only [e3] using h2

/-- Claim C5, witness: seat 2 of 4 closed; after seats 3, 0 and finally 1
act, the round finishes through the all-acted path. -/
theorem processPlayerAction_close_completeness_witness :
    (processPlayerAction exLastRoundState "player-1" PlayerAction.skip none none).2
      = some FinishCall.allActed :=
  (processPlayerAction_close_completeness exLastRoundState "player-1" PlayerAction.skip
    none none "player-2" 2 pL1 rfl rfl (by decide) (by decide) (by decide) (by decide)
    (by decide) (by decide)).mpr (by decide)

end Schwimmen
